import Mathlib

/-!
# Quanta.js — shallow embedding and verification

This file embeds the core logic of the Quanta analytics SDK
(`src/src/abstract.ts` and `src/expo/src/useScreenTracking.ts` /
`src/expo/src/sessionStorage.ts`) as executable Lean definitions and
proves properties of the delivery queue, the AB-experiment assignment,
the codec, and the screen-session tracker.

Modelling conventions:
* JavaScript strings that are hashed character-by-character are modelled
  as lists of UTF-16 code units (`List Nat`); strings that are only
  compared, concatenated or built character-wise are `String` /
  `List Char`.
* JavaScript numbers are modelled exactly: integer-valued quantities
  (timestamps, durations, lengths) as `Int`/`Nat`, fractional ones
  (backoff delays, seconds, revenue) as `ℚ`.  Floating-point rounding in
  number formatting is modelled by exact rational rounding, which agrees
  with the double computations on all values considered here.
* Asynchronous code is sequentialised: the drain loop becomes a
  fuel-indexed recursion producing a trace of actions, storage becomes
  explicit state passing.
-/

namespace Quanta

/-! ## JavaScript integer helpers -/

/-- JavaScript `ToInt32`: wrap an integer into the signed 32-bit range
`[-2^31, 2^31)`.  Used by the bitwise operators in `stringToNumber`. -/
def toInt32 (x : Int) : Int := (x + 2 ^ 31) % 2 ^ 32 - 2 ^ 31

/-- Source `stringToNumber` (src/src/abstract.ts, lines 655-664).
`hash = (hash << 5) - hash + char; hash = hash & hash` over each UTF-16
code unit, then `Math.abs(hash % 100)`.  The shift `hash << 5` wraps the
doubled value to 32 bits (the accumulator is always a 32-bit value), and
`hash & hash` is JavaScript's idiom for `ToInt32`.  JavaScript `%` is
truncating remainder, i.e. `Int.tmod`. -/
def stringToNumber (input : List Nat) : Nat :=
  let hash : Int :=
    input.foldl (fun (hash : Int) (c : Nat) => toInt32 (toInt32 (hash * 32) - hash + c)) 0
  (Int.tmod hash 100).natAbs

/-! ## AB experiment assignment (src/src/abstract.ts, lines 603-664) -/

/-- Server-supplied experiment definition:
`interface ABExperiment with name: string[]; variants: number[]`. -/
structure ABExperiment where
  name : List (List Nat)
  variants : List Int
  deriving DecidableEq

/-- The positional variant alphabet used by `getAbLetters`. -/
def alphabet : List Char := "ABCDEFGHIJKLMNOPQRSTUVWXYZ".toList

/-- The characters appended by `abLetters += undefined` when the chosen
variant index falls outside the alphabet (JavaScript stringifies the
out-of-range indexing result `undefined`). -/
def undefinedChars : List Char := "undefined".toList

/-- `"ABCDEFGHIJKLMNOPQRSTUVWXYZ"[idx]` appended to a string: one letter
when `idx` is in range, the text `undefined` otherwise. -/
def letterFor (idx : Nat) : List Char :=
  match alphabet.get? idx with
  | some c => [c]
  | none => undefinedChars

/-- `exp.name[exp.name.length - 1] || ""`: the last element of the name
array, or the empty string when the array is empty. -/
def lastNameOf (names : List (List Nat)) : List Nat := names.getLast?.getD []

/-- UTF-16 code unit of `"."`. -/
def dotCode : Nat := 46

/-- The inner loop of `getAbLetters`: walk the variant weights keeping a
running `limit`; on the first index where `limit > int` emit that
positional letter and stop. -/
def pickVariantLoop (int : Nat) : List Int → Int → Nat → List Char
  | [], _, _ => []
  | v :: vs, limit, idx =>
    let limit' := limit + v
    if limit' > (int : Int) then letterFor idx
    else pickVariantLoop int vs limit' (idx + 1)

/-- One experiment's contribution to `abLetters`: hash
`id + "." + lastName`, reduce to `[0, 100)`, and walk the weights. -/
def assignExperiment (id : List Nat) (exp : ABExperiment) : List Char :=
  let key := id ++ dotCode :: lastNameOf exp.name
  let int := stringToNumber key
  pickVariantLoop int exp.variants 0 0

/-- Source `getAbLetters` (src/src/abstract.ts, lines 603-629): the
concatenation of every experiment's contribution, in order. -/
def getAbLetters (id : List Nat) (experiments : List ABExperiment) : List Char :=
  experiments.flatMap (assignExperiment id)

/-- ASCII `toLowerCase` on one UTF-16 code unit (the experiment names
exercised here are ASCII; the full Unicode table is out of scope). -/
def lowerCode (c : Nat) : Nat := if 65 ≤ c ∧ c ≤ 90 then c + 32 else c

/-- JavaScript `name.toLowerCase()` on a code-unit string. -/
def toLowerCase (s : List Nat) : List Nat := s.map lowerCode

/-- Source `getAbDict` (src/src/abstract.ts, lines 631-653): walk the
experiments by index, stopping as soon as the index reaches the end of
the previously computed letter string, and bind every (lowercased) name
of experiment `idx` to `letters.substring(idx, idx + 1)`.  Peeling one
letter per experiment is exactly that indexing.  The result is the list
of assignments in write order. -/
def getAbDict : List ABExperiment → List Char → List (List Nat × Char)
  | [], _ => []
  | _ :: _, [] => []
  | exp :: exps, c :: cs => exp.name.map (fun n => (toLowerCase n, c)) ++ getAbDict exps cs

/-- Reading a JavaScript object built by repeated `dict[key] = value`
assignments: the last write wins. -/
def dictLookup : List (List Nat × Char) → List Nat → Option Char
  | [], _ => none
  | (k, v) :: rest, key =>
    match dictLookup rest key with
    | some c => some c
    | none => if k = key then some v else none

/-! ### Specification-side reformulation of the assignment (for C3)

These definitions follow the specification's wording: the polynomial
rolling hash `hash = hash * 31 + charCode` wrapped to 32 bits, absolute
value mod 100, then the first variant whose cumulative weight sum
strictly exceeds the hash value. -/

/-- One step of the specification's rolling hash: `hash * 31 + charCode`
wrapped to 32 bits. -/
def specHashStep (hash : Int) (c : Nat) : Int := toInt32 (31 * hash + c)

/-- The specification's hash: fold `specHashStep`, absolute value mod 100. -/
def specHash (s : List Nat) : Nat := ((s.foldl specHashStep 0).tmod 100).natAbs

/-- Cumulative sums of a weight list starting from `limit`:
`[limit + w0, limit + w0 + w1, ...]`. -/
def cumFrom (limit : Int) (ws : List Int) : List Int := (ws.scanl (· + ·) limit).tail

/-- Specification-side assignment of one experiment: hash the key built
from the user id and the last element of the experiment's name array
(the amended reading of the claim), and positionally map the first index
whose cumulative sum strictly exceeds the hash. -/
def specAssign (id : List Nat) (exp : ABExperiment) : List Char :=
  let h := specHash (id ++ dotCode :: lastNameOf exp.name)
  match (cumFrom 0 exp.variants).findIdx? (fun s => decide ((h : Int) < s)) with
  | some idx => letterFor idx
  | none => []

/-- Specification-side letter string built from `specAssign`. -/
def getAbLettersSpec (id : List Nat) (experiments : List ABExperiment) : List Char :=
  experiments.flatMap (specAssign id)

/-- Literal reading of the claim's key: the last *character* of the
experiment's name (`lastCharOfExperimentName`), not the last element of
the name array. -/
def lastCharOf (names : List (List Nat)) : List Nat :=
  match (lastNameOf names).getLast? with
  | some c => [c]
  | none => []

/-- Assignment under the claim's literal key construction. -/
def specAssignLastChar (id : List Nat) (exp : ABExperiment) : List Char :=
  let h := specHash (id ++ dotCode :: lastCharOf exp.name)
  match (cumFrom 0 exp.variants).findIdx? (fun s => decide ((h : Int) < s)) with
  | some idx => letterFor idx
  | none => []

/-- Letter string under the claim's literal key construction. -/
def getAbLettersLastChar (id : List Nat) (experiments : List ABExperiment) : List Char :=
  experiments.flatMap (specAssignLastChar id)

/-! ## The public `abTest` query (src/src/abstract.ts, lines 317-326) -/

/-- The class-level state consulted by `abTest`. -/
structure QuantaState where
  initialized : Bool
  abDict : List (List Nat × Char)
  deriving DecidableEq

/-- Source `abTest`: before initialization it logs an error, triggers
`initialize()` (the `Bool` component records that side effect) and
returns `"A"`; otherwise it looks up the lowercased experiment name,
defaulting to `"A"`.  The function is total: no code path throws. -/
def abTest (st : QuantaState) (experimentName : List Nat) : String × Bool :=
  if st.initialized = false then ("A", true)
  else
    (match dictLookup st.abDict (toLowerCase experimentName) with
      | some c => String.mk [c]
      | none => "A",
      false)

/-! ## Event queue and delivery engine (src/src/abstract.ts, lines 467-509)

The drain loop is sequentialised into a trace of observable actions.  A
queued record is identified by its `time.getTime()` value (the only
field the loop inspects).  `send n` is the transport's answer to the
`n`-th delivery attempt overall, and `nowAt n` is `Date.now()` at the
age check following attempt `n`; both are oracle parameters so that
arbitrary transports and clock behaviours can be quantified over. -/

/-- Observable actions of the drain loop. -/
inductive QAction where
  /-- the backoff sleep `Math.pow(1.5, failures - 1) * 500` -/
  | backoff (ms : ℚ)
  /-- a delivery attempt for the record with the given timestamp -/
  | attempt (record : ℚ)
  /-- `this._queue.shift()` -/
  | pop
  /-- the fixed 100 ms pause between attempts -/
  | pause
  deriving DecidableEq

/-- Queue plus the loop-local failure counter. -/
structure DrainState where
  queue : List ℚ
  failures : Nat
  deriving DecidableEq

/-- One iteration of the `while` loop in `processQueue`: optional
backoff sleep, one `sendEvent` attempt, then either pop the head
(success, 27 recorded failures, or age above 48 h) resetting the
counter, or increment the counter; finally the 100 ms pause. -/
def drainStep (send : Nat → Bool) (nowAt : Nat → ℚ) (n : Nat)
    (t : ℚ) (rest : List ℚ) (failures : Nat) : List QAction × DrainState :=
  let pre : List QAction :=
    if 0 < failures then [QAction.backoff ((1.5 : ℚ) ^ (failures - 1) * 500)] else []
  let success := send n
  let eventAge : ℚ := (nowAt n - t) / (1000 * 60 * 60)
  if success = true ∨ 27 ≤ failures ∨ 48 < eventAge then
    (pre ++ [QAction.attempt t, QAction.pop, QAction.pause], ⟨rest, 0⟩)
  else
    (pre ++ [QAction.attempt t, QAction.pause], ⟨t :: rest, failures + 1⟩)

/-- The `while (this._queue.length > 0)` loop, with fuel.  Each record
is attempted at most 28 times before it is popped, so `28 * |queue|`
fuel is always sufficient. -/
def drainRun (send : Nat → Bool) (nowAt : Nat → ℚ) : Nat → Nat → DrainState → List QAction
  | 0, _, _ => []
  | fuel + 1, n, st =>
    match st.queue with
    | [] => []
    | t :: rest =>
      let step := drainStep send nowAt n t rest st.failures
      step.1 ++ drainRun send nowAt fuel (n + 1) step.2

/-- Source `processQueue`: no-op when already draining (`_isProcessing`,
the single-flight guard) or when the queue is empty; otherwise run the
drain loop from a zero failure counter. -/
def processQueue (send : Nat → Bool) (nowAt : Nat → ℚ) (isProcessing : Bool)
    (queue : List ℚ) : List QAction :=
  if isProcessing = true ∨ queue = [] then []
  else drainRun send nowAt (28 * queue.length) 0 ⟨queue, 0⟩

/-- The expected actions of iteration `i` (failure counter `= i`) of a
drain of one young record against an always-failing transport: a
backoff sleep of `1.5 ^ (i - 1) * 500` ms on every iteration except the
first, the attempt, the pop on the final (28th) iteration, and the
100 ms pause. -/
def iterActs (t : ℚ) (i : Nat) : List QAction :=
  (if i = 0 then [] else [QAction.backoff ((1.5 : ℚ) ^ (i - 1) * 500)]) ++
    QAction.attempt t :: (if 27 ≤ i then [QAction.pop] else []) ++ [QAction.pause]

/-- The full trace of draining one young record against an
always-failing transport: 28 attempts, backoffs before attempts 2..28,
one pop at the end. -/
def alwaysFailTrace (t : ℚ) : List QAction := (List.range 28).flatMap (iterActs t)

/-- Number of delivery attempts in a trace. -/
def countAttempts (acts : List QAction) : Nat :=
  (acts.filter fun a => match a with | QAction.attempt _ => true | _ => false).length

/-- The records attempted by a trace, in order. -/
def attemptedRecords (acts : List QAction) : List ℚ :=
  acts.filterMap fun a => match a with | QAction.attempt r => some r | _ => none

/-! ## Codec (src/src/abstract.ts, lines 245-310 and 434-441) -/

/-- UTF-16 code unit of the record separator `"\u001E"`. -/
def RS : Nat := 30

/-- UTF-16 code unit of the unit separator `"\u001F"`. -/
def US : Nat := 31

/-- Source `safe`: strip every record separator; unless
`keepUnitSeparator`, also strip every unit separator. -/
def safe (value : List Nat) (keepUnitSeparator : Bool) : List Nat :=
  if keepUnitSeparator then value.filter (fun c => c ≠ RS)
  else (value.filter (fun c => c ≠ RS)).filter (fun c => c ≠ US)

/-- The `addedArguments` parameter of `logWithRevenueAsync`: either a
pre-joined string or a key/value record. -/
inductive AddedArguments where
  | direct (s : List Nat)
  | record (pairs : List (List Nat × List Nat))

/-- JavaScript's default array sort order on strings: lexicographic on
UTF-16 code units. -/
def lexLe : List Nat → List Nat → Bool
  | [], _ => true
  | _ :: _, [] => false
  | a :: as, b :: bs => if a < b then true else if b < a then false else lexLe as bs

/-- The `argString` construction in `logWithRevenueAsync`: a direct
string is only sanitised (keeping unit separators); a record is encoded
as `key US value US` pairs over the sorted keys with the trailing
separator trimmed. -/
def buildArgString (addedArguments : AddedArguments) : List Nat :=
  match addedArguments with
  | .direct s => safe s true
  | .record pairs =>
    let sorted := pairs.mergeSort (fun a b => lexLe a.1 b.1)
    let argString :=
      sorted.foldl (fun acc kv => acc ++ safe kv.1 false ++ US :: safe kv.2 false ++ [US]) []
    if 0 < argString.length then argString.dropLast else argString

/-- The event/argument encoding portion of `logWithRevenueAsync`
(src/src/abstract.ts, lines 259-309): truncate the event name to 200
units, build the argument string, right-truncate it to `200 - |event|`
units when the combined length exceeds 200, and sanitise both for the
queued record (`event: this.safe(event)`,
`addedArguments: this.safe(argString, true)`). -/
def encodeEventArgs (event : List Nat) (addedArguments : AddedArguments) :
    List Nat × List Nat :=
  let event := if 200 < event.length then event.take 200 else event
  let argString := buildArgString addedArguments
  let argString :=
    if 200 < event.length + argString.length then argString.take (200 - event.length)
    else argString
  (safe event false, safe argString true)

/-! ## Revenue formatting (src/src/abstract.ts, lines 443-465) -/

/-- Decimal digits of `k` padded with a leading zero below 10 (the
two-digit fraction part of `toFixed(2)`). -/
def padToTwo (k : Nat) : List Char :=
  if k < 10 then '0' :: Nat.toDigits 10 k else Nat.toDigits 10 k

/-- JavaScript `value.toFixed(2)`: sign of the value, then the integer
closest to `|value| * 100` (ties towards the larger integer) rendered
with exactly two fraction digits.  Exact rational rounding; it agrees
with the double computation on the values considered here. -/
def toFixed2 (value : ℚ) : List Char :=
  let sign : List Char := if value < 0 then ['-'] else []
  let n : Nat := (Int.floor (|value| * 100 + 1 / 2)).toNat
  sign ++ Nat.toDigits 10 (n / 100) ++ '.' :: padToTwo (n % 100)

/-- `formatted.endsWith(".00")`. -/
def endsWithDotZeroZero (s : List Char) : Bool :=
  match s.reverse with
  | '0' :: '0' :: '.' :: _ => true
  | _ => false

/-- `formatted.substring(0, formatted.length - 3)`. -/
def dropLastThree (s : List Char) : List Char := (s.reverse.drop 3).reverse

/-- The non-recursive tail of `stringForDouble`: format with two
decimals and strip a trailing `".00"`. -/
def formatRevenue (value : ℚ) : List Char :=
  let formatted := toFixed2 value
  if endsWithDotZeroZero formatted then dropLastThree formatted else formatted

/-- Source `stringForDouble`: clamp to `±999999.99` (the source recurses
on the bound; since neither bound satisfies either guard, that recursive
call lands directly in the formatting branch, inlined here), then format
and strip a trailing `".00"`. -/
def stringForDouble (value : ℚ) : List Char :=
  if value > 999999.99 then formatRevenue 999999.99
  else if value < -999999.99 then formatRevenue (-999999.99)
  else formatRevenue value

/-! ## Duration formatting (src/expo/src/useScreenTracking.ts, lines 270-305) -/

/-- Left-pad the digits of `k` with zeros to `p` places. -/
def padLeftZeros (p : Nat) (k : Nat) : List Char :=
  let d := Nat.toDigits 10 k
  List.replicate (p - d.length) '0' ++ d

/-- Drop trailing `'0'` characters (the `toLocaleString` default of zero
minimum fraction digits). -/
def trimTrailingZeros (s : List Char) : List Char :=
  (s.reverse.dropWhile (fun c => c = '0')).reverse

/-- `value.toLocaleString("en-US", maximum p fraction digits)` with the
grouping commas already removed (the source strips them with
`.replace(/,/g, "")`): round half away from zero to `p` places and
render without trailing fraction zeros.  Exact rational rounding. -/
def fmtMaxFrac (value : ℚ) (p : Nat) : List Char :=
  let sign : List Char := if value < 0 then ['-'] else []
  let n : Nat := (Int.floor (|value| * 10 ^ p + 1 / 2)).toNat
  let ip := n / 10 ^ p
  let fp := n % 10 ^ p
  let frac := trimTrailingZeros (padLeftZeros p fp)
  if frac = [] then sign ++ Nat.toDigits 10 ip
  else sign ++ Nat.toDigits 10 ip ++ '.' :: frac

/-- `value.toExponential(2)` with the `"+"` of the exponent already
removed (as the source's `.replace` does).  Only reached for
`|value| > 9999`, so the exponent is never negative.  Exact rational
rounding with an explicit carry when the mantissa rounds up to 10. -/
def toExponential2 (value : ℚ) : List Char :=
  let sign : List Char := if value < 0 then ['-'] else []
  let x := |value|
  let e : Nat := (Nat.toDigits 10 (Int.floor x).toNat).length - 1
  let m : Nat := (Int.floor (x / 10 ^ e * 100 + 1 / 2)).toNat
  let me : Nat × Nat := if 1000 ≤ m then (100, e + 1) else (m, e)
  sign ++ Nat.toDigits 10 (me.1 / 100) ++ '.' :: padLeftZeros 2 (me.1 % 100) ++
    'e' :: Nat.toDigits 10 me.2

/-- Source `shortString` (the version exported by
src/expo/src/useScreenTracking.ts): scientific notation above 9999,
`"0"` below 0.001, otherwise decimal with precision
`intLength >= 4 ? 2 : min(4 - intLength, 2)`. -/
def shortString (value : ℚ) : List Char :=
  if 9999 < |value| then toExponential2 value
  else if value = 0 ∨ |value| < 1 / 1000 then ['0']
  else
    let intLength := (Nat.toDigits 10 (Int.floor |value|).toNat).length
    if 4 ≤ intLength then fmtMaxFrac value 2
    else fmtMaxFrac value (min (4 - intLength) 2)

/-! ## Screen session tracker (src/expo/src/useScreenTracking.ts) -/

/-- `ScreenSession` (lines 239-247). -/
structure ScreenSession where
  screenId : String
  args : List (String × String)
  startTime : Int
  pauseTime : Option Int
  accumulatedTime : Int
  isPaused : Bool
  sessionStartTime : Int
  deriving DecidableEq

/-- `StoredSession` (src/expo/src/sessionStorage.ts): a crash-recovery
snapshot. -/
structure StoredSession where
  screenId : String
  args : List (String × String)
  accumulatedTime : Int
  lastUpdateTime : Int
  startTime : Int
  isEstimated : Bool
  deriving DecidableEq

/-- A call to `Quanta.logWithRevenue(event, revenue, args, time)`. -/
structure LoggedEvent where
  event : String
  revenue : ℚ
  args : List (String × String)
  time : Int
  deriving DecidableEq

/-- `MINIMUM_TRACKABLE_DURATION = 500` ms. -/
def MINIMUM_TRACKABLE : Int := 500

/-- `MAX_RESTORE_SESSION_AGE = 24 * 60 * 60 * 1000` ms. -/
def MAX_RESTORE_AGE : Int := 24 * 60 * 60 * 1000

/-- JavaScript object property read (first matching key; keys are unique
in the session maps). -/
def alookup {α : Type} : List (String × α) → String → Option α
  | [], _ => none
  | (k, v) :: rest, key => if k = key then some v else alookup rest key

/-- JavaScript object property write: replace in place or append. -/
def ainsert {α : Type} : List (String × α) → String → α → List (String × α)
  | [], key, v => [(key, v)]
  | (k, w) :: rest, key, v =>
    if k = key then (k, v) :: rest else (k, w) :: ainsert rest key v

/-- JavaScript `delete obj[key]` / rest-destructuring removal. -/
def aremove {α : Type} (m : List (String × α)) (key : String) : List (String × α) :=
  m.filter (fun p => p.1 ≠ key)

/-- The tracker state threaded through the hook: the first-load guard,
the in-memory active-session map, the persisted active-session snapshot
(`tools.quanta.active_sessions`), and the crash-recovery store
(`tools.quanta.sessions`). -/
structure TrackerState where
  isFirstLoad : Bool
  active : List (String × ScreenSession)
  activeStored : List (String × ScreenSession)
  crashStore : List StoredSession
  deriving DecidableEq

/-- Source `calculateDuration` (lines 691-696). -/
def calculateDuration (now : Int) (session : ScreenSession) : Int :=
  if session.isPaused then session.accumulatedTime
  else session.accumulatedTime + (now - session.startTime)

/-- Source `finishSession` (lines 582-622): remove the crash-recovery
record for the screen, discard silently below the 500 ms threshold,
otherwise emit the `"view"` event with
`screen, seconds: shortString(duration / 1000), ...args`, timestamped
`new Date(session.startTime)`. -/
def finishSession (screenId : String) (session : ScreenSession) (duration : Int)
    (crashStore : List StoredSession) : List StoredSession × List LoggedEvent :=
  let crashStore := crashStore.filter (fun s => s.screenId ≠ screenId)
  if duration < MINIMUM_TRACKABLE then (crashStore, [])
  else
    (crashStore,
      [⟨"view", 0,
        ("screen", screenId) ::
          ("seconds", String.mk (shortString ((duration : ℚ) / 1000))) :: session.args,
        session.startTime⟩])

/-- Source `endScreenView` (lines 473-577): finish the active session
if present (removing it from the in-memory map and the persisted
active-session snapshot); otherwise fall back to the persisted snapshot
and finish that copy. -/
def endScreenView (now : Int) (screenId : String) (st : TrackerState) :
    TrackerState × List LoggedEvent :=
  match alookup st.active screenId with
  | some session =>
    let active' := aremove st.active screenId
    let duration := calculateDuration now session
    let fin := finishSession screenId session duration st.crashStore
    ({ st with active := active', activeStored := active', crashStore := fin.1 }, fin.2)
  | none =>
    match alookup st.activeStored screenId with
    | none => (st, [])
    | some stored =>
      let duration :=
        if stored.isPaused then stored.accumulatedTime
        else stored.accumulatedTime + (now - stored.startTime)
      let fin := finishSession screenId stored duration st.crashStore
      ({ st with activeStored := aremove st.activeStored screenId, crashStore := fin.1 },
        fin.2)

/-- The per-snapshot body of the restore loop in
`processRestoredSessions` (lines 978-1066): skip snapshots below the
500 ms threshold; prefer a matching entry of the persisted
active-session snapshot; otherwise reconstruct a fresh active session
with `startTime = now`, `accumulatedTime = 0` when the snapshot was
estimated (its actual value otherwise), and
`sessionStartTime = snapshot.startTime`. -/
def restoreSession (now : Int) (st : TrackerState) (session : StoredSession) :
    TrackerState :=
  if session.accumulatedTime < MINIMUM_TRACKABLE then st
  else
    match alookup st.activeStored session.screenId with
    | some storedActive =>
      { st with active := ainsert st.active session.screenId storedActive }
    | none =>
      let accumulatedTime : Int := if session.isEstimated then 0 else session.accumulatedTime
      { st with
        active := ainsert st.active session.screenId
          ⟨session.screenId, session.args, now, none, accumulatedTime, false,
            session.startTime⟩ }

/-- Source `processRestoredSessions` (lines 926-1077): no-op unless this
is the first load; clear the first-load flag; read the crash-recovery
store; drop snapshots older than 24 hours; restore the remaining ones;
clear the store.  The function logs no events. -/
def processRestoredSessions (now : Int) (st : TrackerState) :
    TrackerState × List LoggedEvent :=
  if st.isFirstLoad = false then (st, [])
  else
    let st := { st with isFirstLoad := false }
    if st.crashStore = [] then (st, [])
    else
      let validSessions :=
        st.crashStore.filter (fun s => now - s.startTime ≤ MAX_RESTORE_AGE)
      if validSessions = [] then ({ st with crashStore := [] }, [])
      else
        let st' := validSessions.foldl (restoreSession now) st
        ({ st' with crashStore := [] }, [])

/-! ## Verified properties -/


theorem toInt32_add_mul (x m : Int) : toInt32 (x + 2 ^ 32 * m) = toInt32 x := by
  unfold toInt32
  rw [add_right_comm, Int.add_mul_emod_self_left]

theorem toInt32_shift_step (h : Int) (c : Nat) :
    toInt32 (toInt32 (h * 32) - h + c) = toInt32 (31 * h + c) := by
  have key : toInt32 (h * 32) = h * 32 + 2 ^ 32 * (-((h * 32 + 2 ^ 31) / 2 ^ 32)) := by
    unfold toInt32
    rw [Int.emod_def]
    ring
  rw [key]
  have rearrange : h * 32 + 2 ^ 32 * (-((h * 32 + 2 ^ 31) / 2 ^ 32)) - h + (c : Int)
      = 31 * h + (c : Int) + 2 ^ 32 * (-((h * 32 + 2 ^ 31) / 2 ^ 32)) := by ring
  rw [rearrange, toInt32_add_mul]

theorem stringToNumber_eq_specHash (s : List Nat) : stringToNumber s = specHash s := by
  unfold stringToNumber specHash
  rw [List.foldl_ext _ specHashStep 0 (fun b a _ => toInt32_shift_step b a)]

theorem scanl_head_tail (f : Int → Int → Int) (b : Int) (l : List Int) :
    List.scanl f b l = b :: (List.scanl f b l).tail := by
  cases l <;> simp [List.scanl]

theorem cumFrom_cons (limit w : Int) (ws : List Int) :
    cumFrom limit (w :: ws) = (limit + w) :: cumFrom (limit + w) ws := by
  show (List.scanl (· + ·) limit (w :: ws)).tail = _
  rw [List.scanl_cons]
  show List.scanl (· + ·) (limit + w) ws = _
  rw [scanl_head_tail]
  rfl

theorem pickVariantLoop_eq (int : Nat) (ws : List Int) (limit : Int) (idx : Nat) :
    pickVariantLoop int ws limit idx =
      match (cumFrom limit ws).findIdx? (fun s => decide ((int : Int) < s)) idx with
      | some j => letterFor j
      | none => [] := by
  induction ws generalizing limit idx with
  | nil => simp [pickVariantLoop, cumFrom, List.scanl, List.findIdx?]
  | cons w ws ih =>
    rw [cumFrom_cons, List.findIdx?_cons]
    unfold pickVariantLoop
    by_cases h : limit + w > (int : Int)
    · rw [if_pos h]
      have hd : decide ((int : Int) < limit + w) = true := by simpa using h
      rw [hd]
      simp
    · rw [if_neg h]
      have hd : decide ((int : Int) < limit + w) = false := by simpa using h
      rw [hd]
      simp only [Bool.false_eq_true, if_false]
      exact ih (limit + w) (idx + 1)

theorem assignExperiment_eq_spec (id : List Nat) (exp : ABExperiment) :
    assignExperiment id exp = specAssign id exp := by
  simp only [assignExperiment, specAssign]
  rw [stringToNumber_eq_specHash, pickVariantLoop_eq]

/-- Claim C3 (amended): for each experiment in order, the assigned variant
is determined by hashing `userId ++ "." ++ lastElementOfNameArray` with the
32-bit-wrapped polynomial rolling hash `hash = hash * 31 + charCode`,
reducing by absolute value mod 100 into `[0, 100)`, walking the variants
weight list with a running cumulative sum and assigning the first variant
whose cumulative sum strictly exceeds the hash value, its index mapped
positionally into `A..Z`.  The two sides are pure functions of the inputs,
so the result is identical across repeated computations.  Amendment: the
hashed suffix is the last *element* of the experiment's name array, not the
last *character* of the experiment name as the claim states (refuted by
`claim_C3_deterministic_assignment_counterexample`). -/
theorem claim_C3_deterministic_assignment (id : List Nat) (experiments : List ABExperiment) :
    getAbLetters id experiments = getAbLettersSpec id experiments := by
  unfold getAbLetters getAbLettersSpec
  induction experiments with
  | nil => rfl
  | cons e es ih => simp [List.flatMap_cons, assignExperiment_eq_spec, ih]

theorem dictLookup_map_const (l : List (List Nat)) (c : Char) (key : List Nat) :
    dictLookup (l.map (fun n => (n, c))) key = if key ∈ l then some c else none := by
  induction l with
  | nil => simp [dictLookup]
  | cons a l ih =>
    simp only [List.map_cons, dictLookup, ih, List.mem_cons]
    by_cases h : key ∈ l
    · simp [h]
    · by_cases h2 : a = key
      · simp [h, h2]
      · have h3 : ¬ key = a := fun hh => h2 hh.symm
        simp [h, h2, h3]

/-- Claim C4 (amended): an experiment whose cumulative variant weights
never exceed the user's hash value contributes no letter to the letters
string (the string is shorter).  However, contrary to the claim, its names
are *not* absent from the lowercase-name lookup: the lookup binds names
positionally against the shortened string, so the skipped experiment's
names receive the letter of the next assigned experiment, and the later
experiment's names fall off the end of the shortened string and are the
ones absent.  Stated here for a skipped experiment `e` followed by an
assigned experiment `t`: the letters are exactly `t`'s letter, every name
of `e` resolves to `t`'s letter, and `t`'s names (when not shadowed by a
name of `e`) are absent. -/
theorem claim_C4_underweight_lookup (id : List Nat) (e t : ABExperiment) (c : Char)
    (n₁ n₂ : List Nat)
    (hskip : assignExperiment id e = [])
    (hhit : assignExperiment id t = [c])
    (hn₁ : n₁ ∈ e.name) (_hn₂ : n₂ ∈ t.name)
    (hdisj : toLowerCase n₂ ∉ e.name.map toLowerCase) :
    getAbLetters id [e, t] = [c] ∧
    dictLookup (getAbDict [e, t] (getAbLetters id [e, t])) (toLowerCase n₁) = some c ∧
    dictLookup (getAbDict [e, t] (getAbLetters id [e, t])) (toLowerCase n₂) = none := by
  have hletters : getAbLetters id [e, t] = [c] := by
    simp [getAbLetters, List.flatMap_cons, hskip, hhit]
  have hdict : getAbDict [e, t] [c] = (e.name.map toLowerCase).map (fun n => (n, c)) := by
    show e.name.map (fun n => (toLowerCase n, c)) ++ getAbDict [t] [] = _
    rw [List.map_map]
    simp [getAbDict]
  refine ⟨hletters, ?_, ?_⟩ <;> rw [hletters, hdict, dictLookup_map_const]
  · rw [if_pos (List.mem_map_of_mem toLowerCase hn₁)]
  · rw [if_neg hdisj]

/-! queue layer -/

theorem drainRun_nil (send : Nat → Bool) (nowAt : Nat → ℚ) (fuel n f : Nat) :
    drainRun send nowAt fuel n ⟨[], f⟩ = [] := by
  cases fuel <;> rfl

theorem age_not_over (x : ℚ) (h : x ≤ 48 * (1000 * 60 * 60)) :
    ¬ (48 < x / (1000 * 60 * 60)) := by
  rw [not_lt, div_le_iff₀ (by norm_num : (0 : ℚ) < 1000 * 60 * 60)]
  exact h

theorem drainStep_fail_continue (send : Nat → Bool) (nowAt : Nat → ℚ) (n : Nat) (t : ℚ)
    (rest : List ℚ) (f : Nat) (hs : send n = false) (hf : f < 27)
    (hage : ¬ 48 < (nowAt n - t) / (1000 * 60 * 60)) :
    drainStep send nowAt n t rest f =
      ((if 0 < f then [QAction.backoff ((1.5 : ℚ) ^ (f - 1) * 500)] else []) ++
        [QAction.attempt t, QAction.pause], ⟨t :: rest, f + 1⟩) := by
  unfold drainStep
  rw [hs, if_neg]
  rintro (h | h | h)
  · simp at h
  · omega
  · exact hage h

theorem drainStep_fail_final (send : Nat → Bool) (nowAt : Nat → ℚ) (n : Nat) (t : ℚ)
    (rest : List ℚ) (f : Nat) (hf : 27 ≤ f) :
    drainStep send nowAt n t rest f =
      ((if 0 < f then [QAction.backoff ((1.5 : ℚ) ^ (f - 1) * 500)] else []) ++
        [QAction.attempt t, QAction.pop, QAction.pause], ⟨rest, 0⟩) := by
  unfold drainStep
  rw [if_pos (Or.inr (Or.inl hf))]

theorem drainStep_expired (send : Nat → Bool) (nowAt : Nat → ℚ) (n : Nat) (t : ℚ)
    (rest : List ℚ) (f : Nat) (hage : 48 * (1000 * 60 * 60) < nowAt n - t) :
    (drainStep send nowAt n t rest f).2 = ⟨rest, 0⟩ := by
  unfold drainStep
  rw [if_pos (Or.inr (Or.inr ?_))]
  rw [lt_div_iff₀ (by norm_num : (0 : ℚ) < 1000 * 60 * 60)]
  linarith

theorem drainRun_always_fail (send : Nat → Bool) (nowAt : Nat → ℚ) (t : ℚ)
    (hfail : ∀ n, send n = false)
    (hyoung : ∀ n, nowAt n - t ≤ 48 * (1000 * 60 * 60)) :
    ∀ k, 1 ≤ k → k ≤ 28 → ∀ fuel n, k ≤ fuel →
      drainRun send nowAt fuel n ⟨[t], 28 - k⟩ =
        (List.range' (28 - k) k).flatMap (iterActs t) := by
  intro k
  induction k with
  | zero => intro h; exact absurd h (by norm_num)
  | succ k ih =>
    intro _ hk28 fuel n hfuel
    obtain ⟨fuel, rfl⟩ : ∃ f', fuel = f' + 1 := ⟨fuel - 1, by omega⟩
    have hage := age_not_over (nowAt n - t) (hyoung n)
    rcases Nat.eq_zero_or_pos k with hk | hk
    · subst hk
      simp only [drainRun]
      rw [drainStep_fail_final send nowAt n t [] (28 - 1) (by norm_num)]
      rw [drainRun_nil]
      simp [iterActs, List.range'_succ]
    · have h27 : 28 - (k + 1) = 27 - k := by omega
      rw [h27]
      simp only [drainRun]
      rw [drainStep_fail_continue send nowAt n t [] (27 - k) (hfail n) (by omega) hage]
      have hsucc27 : 27 - k + 1 = 28 - k := by omega
      rw [hsucc27]
      have hk28' : k ≤ 28 := by omega
      have hfl : k ≤ fuel := by omega
      rw [ih hk hk28' fuel (n + 1) hfl]
      have hrange : List.range' (27 - k) (k + 1) = (27 - k) :: List.range' (28 - k) k := by
        rw [List.range'_succ, hsucc27]
      rw [hrange, List.flatMap_cons]
      have hnp : ¬ (27 ≤ 27 - k) := by omega
      by_cases hz : 27 - k = 0
      · simp [iterActs, hz, hnp]
      · simp [iterActs, hz, hnp, Nat.pos_of_ne_zero hz]

theorem countAttempts_append (l₁ l₂ : List QAction) :
    countAttempts (l₁ ++ l₂) = countAttempts l₁ + countAttempts l₂ := by
  simp [countAttempts, List.filter_append]

theorem countAttempts_iterActs (t : ℚ) (i : Nat) : countAttempts (iterActs t i) = 1 := by
  by_cases h : i = 0 <;> by_cases h' : 27 ≤ i <;>
    simp [iterActs, countAttempts, h, h']

theorem countAttempts_range' (t : ℚ) :
    ∀ len s : Nat, countAttempts ((List.range' s len).flatMap (iterActs t)) = len := by
  intro len
  induction len with
  | zero => intro s; rfl
  | succ len ih =>
    intro s
    rw [List.range'_succ, List.flatMap_cons, countAttempts_append, countAttempts_iterActs,
      ih (s + 1)]
    omega

theorem countAttempts_alwaysFailTrace (t : ℚ) : countAttempts (alwaysFailTrace t) = 28 := by
  rw [alwaysFailTrace, List.range_eq_range', countAttempts_range']

theorem processQueue_always_fail (send : Nat → Bool) (nowAt : Nat → ℚ) (t : ℚ)
    (hfail : ∀ n, send n = false)
    (hyoung : ∀ n, nowAt n - t ≤ 48 * (1000 * 60 * 60)) :
    processQueue send nowAt false [t] = alwaysFailTrace t := by
  unfold processQueue
  rw [if_neg (by simp)]
  have h := drainRun_always_fail send nowAt t hfail hyoung 28 (by norm_num) (le_refl 28)
    (28 * [t].length) 0 (by simp)
  simpa [alwaysFailTrace, List.range_eq_range'] using h

theorem drainRun_all_success (send : Nat → Bool) (nowAt : Nat → ℚ)
    (hsucc : ∀ n, send n = true) :
    ∀ (q : List ℚ) (fuel n : Nat), q.length ≤ fuel →
      drainRun send nowAt fuel n ⟨q, 0⟩ =
        q.flatMap (fun r => [QAction.attempt r, QAction.pop, QAction.pause]) := by
  intro q
  induction q with
  | nil => intro fuel n _; cases fuel <;> rfl
  | cons t rest ih =>
    intro fuel n hfuel
    simp only [List.length_cons] at hfuel
    obtain ⟨fuel, rfl⟩ : ∃ f', fuel = f' + 1 := ⟨fuel - 1, by omega⟩
    simp only [drainRun]
    have hstep : drainStep send nowAt n t rest 0 =
        ([QAction.attempt t, QAction.pop, QAction.pause], ⟨rest, 0⟩) := by
      unfold drainStep
      rw [hsucc n, if_pos (Or.inl rfl)]
      simp
    rw [hstep, List.flatMap_cons]
    simp only [List.cons_append, List.nil_append]
    have hlen : rest.length ≤ fuel := by omega
    rw [ih fuel (n + 1) hlen]

theorem attemptedRecords_pops (q : List ℚ) :
    attemptedRecords
      (q.flatMap (fun r => [QAction.attempt r, QAction.pop, QAction.pause])) = q := by
  induction q with
  | nil => rfl
  | cons t rest ih =>
    rw [List.flatMap_cons]
    simp [attemptedRecords] at ih ⊢
    exact ih

/-- Claim C1 (amended): for a queue holding one record younger than 48
hours at every age check and a transport that fails on every attempt, the
drain loop produces exactly the trace `alwaysFailTrace`: 28 delivery
attempts (the failure counter reaches 27, and the attempt made with 27
recorded failures is the final one) before the record is popped; before
every retry attempt — never before the very first — it sleeps
`500 * 1.5 ^ (failures - 1)` ms; and (third conjunct) whenever the head
record's age exceeds 48 hours the iteration pops it and resets the failure
counter regardless of the failure count and of the transport's answer.
Amendment: the claim's "exactly 27 delivery attempts" is corrected to 28
(see `claim_C1_bounded_retry_counterexample`). -/
theorem claim_C1_bounded_retry (send : Nat → Bool) (nowAt : Nat → ℚ) (t : ℚ)
    (hfail : ∀ n, send n = false)
    (hyoung : ∀ n, nowAt n - t ≤ 48 * (1000 * 60 * 60)) :
    processQueue send nowAt false [t] = alwaysFailTrace t ∧
    countAttempts (alwaysFailTrace t) = 28 ∧
    (∀ (send' : Nat → Bool) (nowAt' : Nat → ℚ) (n : Nat) (t' : ℚ) (rest : List ℚ) (f : Nat),
      48 * (1000 * 60 * 60) < nowAt' n - t' →
      (drainStep send' nowAt' n t' rest f).2 = ⟨rest, 0⟩) :=
  ⟨processQueue_always_fail send nowAt t hfail hyoung,
   countAttempts_alwaysFailTrace t,
   fun send' nowAt' n t' rest f h => drainStep_expired send' nowAt' n t' rest f h⟩

/-- Witness for `claim_C1_bounded_retry` at a concrete transport, clock
and record. -/
theorem claim_C1_bounded_retry_witness :
    processQueue (fun _ => false) (fun _ => (0 : ℚ)) false [0] = alwaysFailTrace 0 ∧
    countAttempts (alwaysFailTrace 0) = 28 ∧
    (drainStep (fun _ => false) (fun _ => (200000000 : ℚ)) 0 0 [7] 3).2 = ⟨[7], 0⟩ := by
  obtain ⟨h1, h2, h3⟩ := claim_C1_bounded_retry (fun _ => false) (fun _ => (0 : ℚ)) 0 (fun _ => rfl)
    (fun n => by norm_num)
  exact ⟨h1, h2, h3 _ _ 0 0 [7] 3 (by norm_num)⟩

/-- Claim C1 counterexample: an always-failing transport against a fresh
record does not make exactly 27 delivery attempts (it makes 28): the 28th
attempt is still executed in the iteration whose failure counter is 27,
and only then is the record popped. -/
theorem claim_C1_bounded_retry_counterexample :
    countAttempts (processQueue (fun _ => false) (fun _ => (0 : ℚ)) false [0]) ≠ 27 := by
  rw [processQueue_always_fail _ _ _ (fun _ => rfl) (fun n => by norm_num),
    countAttempts_alwaysFailTrace]
  norm_num

/-- Claim C2: with a transport that succeeds on every attempt, the drain
trace for any enqueued list is exactly attempt/pop/pause per record in
enqueue order, so the transport observes the records in exactly enqueue
order and record N+1 is never attempted before record N has been popped;
and a `processQueue` call while `_isProcessing` is set is a no-op, the
single-flight guarantee. -/
theorem claim_C2_fifo_delivery (send : Nat → Bool) (nowAt : Nat → ℚ) (hsucc : ∀ n, send n = true) :
    (∀ queue : List ℚ, processQueue send nowAt false queue =
      queue.flatMap (fun r => [QAction.attempt r, QAction.pop, QAction.pause])) ∧
    (∀ queue : List ℚ, attemptedRecords (processQueue send nowAt false queue) = queue) ∧
    (∀ queue : List ℚ, processQueue send nowAt true queue = []) := by
  have h1 : ∀ queue : List ℚ, processQueue send nowAt false queue =
      queue.flatMap (fun r => [QAction.attempt r, QAction.pop, QAction.pause]) := by
    intro q
    by_cases hq : q = []
    · subst hq
      simp [processQueue]
    · unfold processQueue
      rw [if_neg (by simp [hq])]
      exact drainRun_all_success send nowAt hsucc q _ 0 (by omega)
  refine ⟨h1, fun q => ?_, fun q => ?_⟩
  · rw [h1 q]
    exact attemptedRecords_pops q
  · unfold processQueue
    rw [if_pos (Or.inl rfl)]

/-- Witness for `claim_C2_fifo_delivery` on the concrete queue
`[1, 2, 3]`. -/
theorem claim_C2_fifo_delivery_witness :
    processQueue (fun _ => true) (fun _ => (0 : ℚ)) false [1, 2, 3] =
      [QAction.attempt 1, QAction.pop, QAction.pause, QAction.attempt 2, QAction.pop,
        QAction.pause, QAction.attempt 3, QAction.pop, QAction.pause] ∧
    attemptedRecords (processQueue (fun _ => true) (fun _ => (0 : ℚ)) false [1, 2, 3]) =
      [1, 2, 3] ∧
    processQueue (fun _ => true) (fun _ => (0 : ℚ)) true [1, 2, 3] = [] := by
  obtain ⟨h1, h2, h3⟩ := claim_C2_fifo_delivery (fun _ => true) (fun _ => (0 : ℚ)) (fun _ => rfl)
  exact ⟨(h1 [1, 2, 3]).trans (by rfl), h2 [1, 2, 3], h3 [1, 2, 3]⟩

/-! codec -/

theorem safe_length_le (value : List Nat) (k : Bool) : (safe value k).length ≤ value.length := by
  unfold safe
  split
  · exact List.length_filter_le _ _
  · exact le_trans (List.length_filter_le _ _) (List.length_filter_le _ _)

theorem encode_le (e a : List Nat) (he : e.length ≤ 200) :
    (safe e false).length +
      (safe (if 200 < e.length + a.length then a.take (200 - e.length) else a) true).length ≤
      200 := by
  have h1 := safe_length_le e false
  by_cases hc : 200 < e.length + a.length
  · rw [if_pos hc]
    have h2 := safe_length_le (a.take (200 - e.length)) true
    have h3 : (a.take (200 - e.length)).length ≤ 200 - e.length := by
      rw [List.length_take]
      omega
    omega
  · rw [if_neg hc]
    have h2 := safe_length_le a true
    omega

/-- Claim C8: for every event name and every arguments input (keyed map
or pre-joined string), the record produced by the log call satisfies
`event.length + addedArguments.length ≤ 200`: the event name is first
truncated to 200 units and the encoded argument string is then
right-truncated to `200 - event.length`. -/
theorem claim_C8_truncation_invariant (event : List Nat) (args : AddedArguments) :
    (encodeEventArgs event args).1.length + (encodeEventArgs event args).2.length ≤ 200 := by
  have he : (if 200 < event.length then event.take 200 else event).length ≤ 200 := by
    split
    · rw [List.length_take]
      omega
    · omega
  exact encode_le _ (buildArgString args) he

/-! revenue formatting -/

theorem toFixed2_five : toFixed2 5 = ['5', '.', '0', '0'] := by
  simp only [toFixed2]
  rw [if_neg (by norm_num : ¬ (5 : ℚ) < 0),
    show |(5 : ℚ)| * 100 + 1 / 2 = 1001 / 2 by norm_num,
    show (⌊(1001 : ℚ) / 2⌋) = 500 by norm_num]
  decide

/-- Claim C9: the revenue formatter clamps its input to
`[-999999.99, 999999.99]` (first conjunct: `stringForDouble` equals
format-after-clamp for every input), formats to two decimal places and
strips a trailing `".00"`; in particular `format 1000000 = format
999999.99`, `format 5 = "5"` and `format 5.5 = "5.50"`. -/
theorem claim_C9_revenue_format :
    (∀ value : ℚ, stringForDouble value =
      formatRevenue (max (-999999.99) (min value 999999.99))) ∧
    stringForDouble 1000000 = stringForDouble 999999.99 ∧
    stringForDouble 5 = "5".toList ∧
    stringForDouble (5.5 : ℚ) = "5.50".toList := by
  refine ⟨?_, ?_, ?_, ?_⟩
  · intro v
    unfold stringForDouble
    by_cases h1 : v > 999999.99
    · rw [if_pos h1]
      rw [min_eq_right h1.le, max_eq_right (by norm_num)]
    · rw [if_neg h1]
      by_cases h2 : v < -999999.99
      · rw [if_pos h2]
        rw [min_eq_left (by linarith), max_eq_left h2.le]
      · rw [if_neg h2]
        rw [min_eq_left (by linarith), max_eq_right (by linarith)]
  · norm_num [stringForDouble]
  · have h5 : stringForDouble 5 = formatRevenue 5 := by norm_num [stringForDouble]
    rw [h5]
    unfold formatRevenue
    rw [toFixed2_five]
    decide
  · have h55 : stringForDouble (5.5 : ℚ) = formatRevenue (5.5 : ℚ) := by
      norm_num [stringForDouble]
    rw [h55]
    unfold formatRevenue
    rw [show toFixed2 (5.5 : ℚ) = ['5', '.', '5', '0'] from ?_]
    · decide
    · simp only [toFixed2]
      rw [if_neg (by norm_num : ¬ (5.5 : ℚ) < 0),
        show |(5.5 : ℚ)| * 100 + 1 / 2 = 1101 / 2 by
          rw [abs_of_pos (by norm_num : (0 : ℚ) < 5.5)]
          norm_num,
        show (⌊(1101 : ℚ) / 2⌋) = 550 by norm_num]
      decide

/-! abTest -/

/-- Claim C10: calling the synchronous `abTest` query before
initialization has completed returns `"A"` and triggers initialization as
a side effect, regardless of the stored experiment dictionary; the
function is total, so no input throws. -/
theorem claim_C10_abtest_default (st : QuantaState) (name : List Nat) (h : st.initialized = false) :
    (abTest st name).1 = "A" ∧ (abTest st name).2 = true := by
  unfold abTest
  rw [h]
  simp

/-- Witness for `claim_C10_abtest_default`: even with a stored dictionary
binding the queried name to `B`, the uninitialized query returns `"A"`. -/
theorem claim_C10_abtest_default_witness :
    (abTest ⟨false, [([107], 'B')]⟩ [107]).1 = "A" ∧
    (abTest ⟨false, [([107], 'B')]⟩ [107]).2 = true :=
  claim_C10_abtest_default ⟨false, [([107], 'B')]⟩ [107] rfl

/-! duration formatting evaluations -/

theorem shortString_one : shortString (1 : ℚ) = ['1'] := by
  simp only [shortString]
  rw [if_neg (by norm_num : ¬ (9999 : ℚ) < |(1 : ℚ)|),
    if_neg (by norm_num : ¬ ((1 : ℚ) = 0 ∨ |(1 : ℚ)| < 1 / 1000)),
    show (⌊|(1 : ℚ)|⌋) = 1 by norm_num]
  rw [if_neg (by decide : ¬ 4 ≤ (Nat.toDigits 10 (Int.toNat 1)).length)]
  rw [show min (4 - (Nat.toDigits 10 (Int.toNat 1)).length) 2 = 2 by decide]
  simp only [fmtMaxFrac]
  rw [show |(1 : ℚ)| * 10 ^ 2 + 1 / 2 = 201 / 2 by norm_num,
    show (⌊(201 : ℚ) / 2⌋) = 100 by norm_num]
  simp only [if_neg (show ¬ (1 : ℚ) < 0 by norm_num)]
  decide

theorem shortString_two : shortString (2 : ℚ) = ['2'] := by
  simp only [shortString]
  rw [if_neg (by norm_num : ¬ (9999 : ℚ) < |(2 : ℚ)|),
    if_neg (by norm_num : ¬ ((2 : ℚ) = 0 ∨ |(2 : ℚ)| < 1 / 1000)),
    show (⌊|(2 : ℚ)|⌋) = 2 by norm_num]
  rw [if_neg (by decide : ¬ 4 ≤ (Nat.toDigits 10 (Int.toNat 2)).length)]
  rw [show min (4 - (Nat.toDigits 10 (Int.toNat 2)).length) 2 = 2 by decide]
  simp only [fmtMaxFrac]
  rw [show |(2 : ℚ)| * 10 ^ 2 + 1 / 2 = 401 / 2 by norm_num,
    show (⌊(401 : ℚ) / 2⌋) = 200 by norm_num]
  simp only [if_neg (show ¬ (2 : ℚ) < 0 by norm_num)]
  decide

/-! tracker layer -/

theorem alookup_ainsert_self {α : Type} (m : List (String × α)) (k : String) (v : α) :
    alookup (ainsert m k v) k = some v := by
  induction m with
  | nil => simp [ainsert, alookup]
  | cons p m ih =>
    obtain ⟨k', w⟩ := p
    by_cases h : k' = k
    · simp [ainsert, alookup, h]
    · simp [ainsert, alookup, h, ih]

theorem alookup_ainsert_other {α : Type} (m : List (String × α)) (k key : String) (v : α)
    (h : key ≠ k) :
    alookup (ainsert m k v) key = alookup m key := by
  induction m with
  | nil => simp [ainsert, alookup, Ne.symm h]
  | cons p m ih =>
    obtain ⟨k', w⟩ := p
    by_cases h1 : k' = k
    · subst h1
      simp [ainsert, alookup, Ne.symm h]
    · by_cases h2 : k' = key
      · subst h2
        simp [ainsert, alookup, h1]
      · simp [ainsert, alookup, h1, h2, ih]

theorem restoreSession_activeStored (now : Int) (st : TrackerState) (s : StoredSession) :
    (restoreSession now st s).activeStored = st.activeStored := by
  unfold restoreSession
  by_cases h : s.accumulatedTime < MINIMUM_TRACKABLE
  · rw [if_pos h]
  · rw [if_neg h]
    cases h2 : alookup st.activeStored s.screenId <;> simp [h2]

theorem restoreSession_isFirstLoad (now : Int) (st : TrackerState) (s : StoredSession) :
    (restoreSession now st s).isFirstLoad = st.isFirstLoad := by
  unfold restoreSession
  by_cases h : s.accumulatedTime < MINIMUM_TRACKABLE
  · rw [if_pos h]
  · rw [if_neg h]
    cases h2 : alookup st.activeStored s.screenId <;> simp [h2]

theorem restoreSession_lookup_other (now : Int) (st : TrackerState) (s : StoredSession)
    (key : String) (h : s.screenId ≠ key) :
    alookup (restoreSession now st s).active key = alookup st.active key := by
  unfold restoreSession
  by_cases h1 : s.accumulatedTime < MINIMUM_TRACKABLE
  · rw [if_pos h1]
  · rw [if_neg h1]
    cases h2 : alookup st.activeStored s.screenId <;> simp only [h2] <;>
      exact alookup_ainsert_other _ _ _ _ (Ne.symm h)

theorem foldl_restore_isFirstLoad (now : Int) (l : List StoredSession) (st : TrackerState) :
    (l.foldl (restoreSession now) st).isFirstLoad = st.isFirstLoad := by
  induction l generalizing st with
  | nil => rfl
  | cons a l ih => rw [List.foldl_cons, ih, restoreSession_isFirstLoad]

theorem foldl_restore_untouched (now : Int) (l : List StoredSession) (st : TrackerState)
    (key : String) (h : ∀ s' ∈ l, s'.screenId ≠ key) :
    alookup (l.foldl (restoreSession now) st).active key = alookup st.active key := by
  induction l generalizing st with
  | nil => rfl
  | cons a l ih =>
    rw [List.foldl_cons, ih _ (fun s' hs' => h s' (List.mem_cons_of_mem a hs')),
      restoreSession_lookup_other now st a key (h a (List.mem_cons_self a l))]

theorem foldl_restore_hit (now : Int) (l : List StoredSession) (s : StoredSession)
    (st : TrackerState) (hmem : s ∈ l) (hnd : (l.map StoredSession.screenId).Nodup)
    (hnoact : alookup st.activeStored s.screenId = none)
    (hmin : MINIMUM_TRACKABLE ≤ s.accumulatedTime) (hest : s.isEstimated = true) :
    alookup (l.foldl (restoreSession now) st).active s.screenId =
      some ⟨s.screenId, s.args, now, none, 0, false, s.startTime⟩ := by
  induction l generalizing st with
  | nil => cases hmem
  | cons a l ih =>
    rw [List.foldl_cons]
    rw [List.map_cons, List.nodup_cons] at hnd
    rcases List.mem_cons.mp hmem with rfl | hmem'
    · have hunt : ∀ s' ∈ l, s'.screenId ≠ s.screenId := by
        intro s' hs' heq
        exact hnd.1 (heq ▸ List.mem_map_of_mem StoredSession.screenId hs')
      rw [foldl_restore_untouched now l _ s.screenId hunt]
      unfold restoreSession
      rw [if_neg (not_lt.mpr hmin)]
      simp only [hnoact, hest, if_true]
      exact alookup_ainsert_self _ _ _
    · exact ih (restoreSession now st a) hmem' hnd.2
        (by rw [restoreSession_activeStored]; exact hnoact)

theorem processRestored_isFirstLoad (now : Int) (st : TrackerState) :
    (processRestoredSessions now st).1.isFirstLoad = false := by
  simp only [processRestoredSessions]
  split
  · next h => exact h
  · split
    · rfl
    · split
      · rfl
      · simp [foldl_restore_isFirstLoad]

/-- Claim C7: running the crash-recovery processing pass a second time in
the same process is a no-op — the second invocation returns the state
unchanged and emits no events — for every persisted snapshot content and
every state, because the first pass always clears the first-load flag. -/
theorem claim_C7_recovery_idempotent (now now' : Int) (st : TrackerState) :
    processRestoredSessions now' (processRestoredSessions now st).1 =
      ((processRestoredSessions now st).1, []) := by
  have h := processRestored_isFirstLoad now st
  set s1 := (processRestoredSessions now st).1 with hs1
  unfold processRestoredSessions
  rw [if_pos h]

theorem seconds_one : String.mk (shortString (1 : ℚ)) = "1" := by
  rw [shortString_one]

theorem seconds_two : String.mk (shortString (2 : ℚ)) = "2" := by
  rw [shortString_two]

/-- Claim C5: on crash recovery, a persisted snapshot not older than 24
hours, with `accumulatedTime` at or above the 500 ms minimum, flagged
`isEstimated`, and without a matching entry in the active-sessions
snapshot, is reconstructed as an active session with `accumulatedTime = 0`
(the estimated floor is discarded), `startTime = now` and
`sessionStartTime = snapshot.startTime`; consequently (second conjunct)
in the Crash1 scenario — estimated-floor snapshot of 5000 ms persisted at
crash, restart, 1000 ms after restart, end — the logged duration is
`"1"` second, not 6 seconds. -/
theorem claim_C5_crash_restore (now : Int) (st : TrackerState) (s : StoredSession)
    (hfirst : st.isFirstLoad = true)
    (hmem : s ∈ st.crashStore)
    (hnodup : (st.crashStore.map StoredSession.screenId).Nodup)
    (hage : now - s.startTime ≤ MAX_RESTORE_AGE)
    (hmin : MINIMUM_TRACKABLE ≤ s.accumulatedTime)
    (hest : s.isEstimated = true)
    (hnoact : alookup st.activeStored s.screenId = none) :
    alookup (processRestoredSessions now st).1.active s.screenId =
      some ⟨s.screenId, s.args, now, none, 0, false, s.startTime⟩ ∧
    (endScreenView 101000 "Crash1"
        (processRestoredSessions 100000
          ⟨true, [], [], [⟨"Crash1", [], 5000, 1000, 0, true⟩]⟩).1).2 =
      [⟨"view", 0, [("screen", "Crash1"), ("seconds", "1")], 100000⟩] := by
  constructor
  · simp only [processRestoredSessions]
    rw [if_neg (by simp [hfirst])]
    have hcs : ¬ st.crashStore = [] := by
      intro h
      rw [h] at hmem
      cases hmem
    rw [if_neg hcs]
    have hmemv : s ∈ st.crashStore.filter (fun s' => now - s'.startTime ≤ MAX_RESTORE_AGE) :=
      List.mem_filter.mpr ⟨hmem, decide_eq_true hage⟩
    rw [if_neg (List.ne_nil_of_mem hmemv)]
    have hndv :
        ((st.crashStore.filter (fun s' => now - s'.startTime ≤ MAX_RESTORE_AGE)).map
          StoredSession.screenId).Nodup :=
      ((List.filter_sublist _).map StoredSession.screenId).nodup hnodup
    exact foldl_restore_hit now _ s _ hmemv hndv hnoact hmin hest
  · have hrestored :
        (processRestoredSessions 100000
          ⟨true, [], [], [⟨"Crash1", [], 5000, 1000, 0, true⟩]⟩).1 =
        ⟨false, [("Crash1", ⟨"Crash1", [], 100000, none, 0, false, 0⟩)], [], []⟩ := by
      decide
    rw [hrestored]
    simp only [endScreenView, alookup, if_pos]
    norm_num [calculateDuration, finishSession, MINIMUM_TRACKABLE, seconds_one]

/-- Witness for `claim_C5_crash_restore` at the concrete Crash1
snapshot. -/
theorem claim_C5_crash_restore_witness :
    alookup (processRestoredSessions 100000
        ⟨true, [], [], [⟨"Crash1", [], 5000, 1000, 0, true⟩]⟩).1.active "Crash1" =
      some ⟨"Crash1", [], 100000, none, 0, false, 0⟩ ∧
    (endScreenView 101000 "Crash1"
        (processRestoredSessions 100000
          ⟨true, [], [], [⟨"Crash1", [], 5000, 1000, 0, true⟩]⟩).1).2 =
      [⟨"view", 0, [("screen", "Crash1"), ("seconds", "1")], 100000⟩] :=
  claim_C5_crash_restore 100000 ⟨true, [], [], [⟨"Crash1", [], 5000, 1000, 0, true⟩]⟩
    ⟨"Crash1", [], 5000, 1000, 0, true⟩ rfl (List.mem_cons_self _ _) (by decide) (by decide)
    (by decide) rfl rfl

/-- Claim C6, evaluated at a failing input.  The duration computation,
the sub-threshold silent discard (conjuncts three and four: a 400 ms
session emits nothing and the crash-recovery record is removed), and the
emitted `"view"` event fields all behave as claimed; but the event is
timestamped `new Date(session.startTime)`, not at the session's original
start: for a session with `startTime = 5000` (moved by a resume or a
crash restore) and `sessionStartTime = 0` (the original start the code's
own comment says to keep "for analytics"), the event carries time 5000
while the claim requires the original start 0. -/
theorem claim_C6_finish_session :
    (endScreenView 6000 "s"
      ⟨false, [("s", ⟨"s", [("k", "v")], 5000, none, 1000, false, 0⟩)],
        [("s", ⟨"s", [("k", "v")], 5000, none, 1000, false, 0⟩)],
        [⟨"s", [], 5000, 0, 0, true⟩]⟩).2 =
      [⟨"view", 0, [("screen", "s"), ("seconds", "2"), ("k", "v")], 5000⟩] ∧
    (⟨"s", [("k", "v")], 5000, none, 1000, false, 0⟩ : ScreenSession).sessionStartTime ≠ 5000 ∧
    (endScreenView 900 "f"
      ⟨false, [("f", ⟨"f", [], 500, none, 0, false, 500⟩)], [],
        [⟨"f", [], 5000, 0, 500, true⟩]⟩).2 = [] ∧
    (endScreenView 900 "f"
      ⟨false, [("f", ⟨"f", [], 500, none, 0, false, 500⟩)], [],
        [⟨"f", [], 5000, 0, 500, true⟩]⟩).1.crashStore = [] := by
  refine ⟨?_, by decide, by decide, by decide⟩
  simp only [endScreenView, alookup, if_pos]
  norm_num [calculateDuration, finishSession, MINIMUM_TRACKABLE, seconds_two]


/-- Claim C3 counterexample: for user id `"u"` and a single experiment
named `"ab"` with weights `[60, 40]`, the source hashes `"u.ab"` (value
58 < 60, variant `A`) while the claim's literal key ends with the last
character of the name, hashing `"u.b"` (value 61 ≥ 60, variant `B`): the
assignments differ. -/
theorem claim_C3_deterministic_assignment_counterexample :
    getAbLetters [117] [⟨[[97, 98]], [60, 40]⟩] ≠
      getAbLettersLastChar [117] [⟨[[97, 98]], [60, 40]⟩] := by
  decide

/-- Witness for `claim_C4_underweight_lookup`: user `"u"`, experiment
`"x"` with weights `[10]` (hash 83, skipped) followed by experiment `"y"`
with weights `[100]` (assigned `A`). -/
theorem claim_C4_underweight_lookup_witness :
    getAbLetters [117] [⟨[[120]], [10]⟩, ⟨[[121]], [100]⟩] = ['A'] ∧
    dictLookup (getAbDict [⟨[[120]], [10]⟩, ⟨[[121]], [100]⟩]
      (getAbLetters [117] [⟨[[120]], [10]⟩, ⟨[[121]], [100]⟩])) (toLowerCase [120]) =
      some 'A' ∧
    dictLookup (getAbDict [⟨[[120]], [10]⟩, ⟨[[121]], [100]⟩]
      (getAbLetters [117] [⟨[[120]], [10]⟩, ⟨[[121]], [100]⟩])) (toLowerCase [121]) = none :=
  claim_C4_underweight_lookup [117] ⟨[[120]], [10]⟩ ⟨[[121]], [100]⟩ 'A' [120] [121]
    (by decide) (by decide) (by decide) (by decide) (by decide)

/-- Claim C4 counterexample: in the same configuration, the skipped
underweight experiment's name `"x"` is *present* in the lookup (bound to
the following experiment's letter), refuting the claimed absence; and the
assigned experiment's name `"y"` is absent, refuting the claim that every
other experiment keeps its own assignment in the lookup projection. -/
theorem claim_C4_underweight_lookup_counterexample :
    dictLookup (getAbDict [⟨[[120]], [10]⟩, ⟨[[121]], [100]⟩]
      (getAbLetters [117] [⟨[[120]], [10]⟩, ⟨[[121]], [100]⟩])) (toLowerCase [120]) ≠
      none ∧
    dictLookup (getAbDict [⟨[[120]], [10]⟩, ⟨[[121]], [100]⟩]
      (getAbLetters [117] [⟨[[120]], [10]⟩, ⟨[[121]], [100]⟩])) (toLowerCase [121]) = none := by
  decide

end Quanta
